import Mathlib

/-!
# Verification of the VTR3 tactic core

Shallow embedding of the bounded `QueryBuffer` from
`vtr_tactic/include/vtr_tactic/tactic_v2.hpp`, of the stereo pipeline's
keyframe fallback from `vtr_vision/src/pipeline.cpp`, of the simple vertex
test from `vtr_vision/src/modules/odometry/simple_vertex_test_module.cpp`,
and a spec-modelled `LocalizationChain` (whose implementation file is not
part of the sources given, only its test), together with theorems settling
the specification claims.
-/

deriving instance DecidableEq for Except

namespace VTR

/-! ## QueryBuffer (tactic_v2.hpp, lines 57-156)

State: `cap` is `size_`, `curr` is `curr_size_`, `queries` is the mixed
queue `queries_` (head = front), `nondisc` is `nondiscardable_queries_`.
A push that would wait on `cv_not_full_` is modelled by the outcome
`blocked` (state as after the prefix move, before the wait); the two
`throw std::runtime_error` consistency checks are modelled by `Except`. -/

/-- Outcome of a `push`: `ret d` models returning the boolean `discarded`
value `d`; `blocked` models waiting on `cv_not_full_`. -/
inductive PushOutcome where
  | ret (discarded : Bool)
  | blocked
deriving DecidableEq, Repr

/-- The bounded buffer state of `QueryBuffer<T>`. -/
structure QueryBuffer (T : Type) where
  cap : Nat
  curr : Nat
  queries : List (T × Bool)
  nondisc : List T
deriving Repr, DecidableEq

/-- A freshly constructed `QueryBuffer(size)`. -/
def QueryBuffer.empty (T : Type) (cap : Nat) : QueryBuffer T :=
  ⟨cap, 0, [], []⟩

/-- The `while` loop at the start of `push` that moves the maximal
non-discardable front segment of `queries_` onto `nondiscardable_queries_`. -/
def moveLoop {T : Type} : List (T × Bool) → List T → List (T × Bool) × List T
  | [], nd => ([], nd)
  | (x, false) :: rest, nd => moveLoop rest (nd ++ [x])
  | (x, true) :: rest, nd => ((x, true) :: rest, nd)

/-- `QueryBuffer::push(qdata, discardable)` (tactic_v2.hpp lines 65-109). -/
def QueryBuffer.push {T : Type} (b : QueryBuffer T) (x : T) (d : Bool) :
    Except String (PushOutcome × QueryBuffer T) :=
  if b.curr ≠ b.queries.length + b.nondisc.length then
    .error "QueryBuffer: inconsistent size"
  else if b.cap < b.curr then
    .error "QueryBuffer: size exceeded"
  else
    let m := moveLoop b.queries b.nondisc
    if b.curr = b.cap then
      if m.2.length = b.cap then
        if d then
          .ok (.ret true, { b with queries := m.1, nondisc := m.2 })
        else
          .ok (.blocked, { b with queries := m.1, nondisc := m.2 })
      else
        .ok (.ret true, { b with queries := (m.1 ++ [(x, d)]).tail, nondisc := m.2 })
    else
      .ok (.ret false,
        { b with queries := m.1 ++ [(x, d)], nondisc := m.2, curr := b.curr + 1 })

/-- `QueryBuffer::pop()` (tactic_v2.hpp lines 111-130); waiting on
`cv_not_empty_` (empty buffer) is modelled by `none`. -/
def QueryBuffer.pop {T : Type} (b : QueryBuffer T) : Option (T × QueryBuffer T) :=
  if b.curr = 0 then none
  else
    match b.nondisc, b.queries with
    | y :: nd, _ => some (y, { b with nondisc := nd, curr := b.curr - 1 })
    | [], (y, _) :: q => some (y, { b with queries := q, curr := b.curr - 1 })
    | [], [] => none

/-- All items currently held, oldest first: the staged non-discardable queue
followed by the mixed queue's items. -/
def bufItems {T : Type} (b : QueryBuffer T) : List T :=
  b.nondisc ++ b.queries.map Prod.fst

/-! ### Tagged operational runs

To reason about arrival order we run the buffer on items `(id, flag)` where
`id` is the push sequence number and `flag` the discardable flag it was
pushed with. -/

/-- An operation performed on the buffer by the (properly locked) client. -/
inductive BufOp where
  | push (d : Bool)
  | pop
deriving DecidableEq, Repr

/-- State of a tagged run: the buffer, the next fresh id, and the list of
popped items in pop order. -/
structure BufRun where
  buf : QueryBuffer (Nat × Bool)
  next : Nat
  popped : List (Nat × Bool)
deriving Repr, DecidableEq

/-- Initial run state over an empty buffer of capacity `cap`. -/
def BufRun.init (cap : Nat) : BufRun :=
  ⟨QueryBuffer.empty _ cap, 0, []⟩

/-- One client operation: a push hands the buffer a freshly tagged item with
the chosen flag; a pop records the returned item. A `blocked` push and a pop
on the empty buffer leave the client waiting, i.e. the state unchanged. -/
def runStep (s : BufRun) : BufOp → BufRun
  | .push d =>
    match s.buf.push (s.next, d) d with
    | .ok (_, b') => { s with buf := b', next := s.next + 1 }
    | .error _ => s
  | .pop =>
    match s.buf.pop with
    | some (y, b') => { s with buf := b', popped := s.popped ++ [y] }
    | none => s

/-- Run a finite sequence of operations from an empty buffer. -/
def runOps (cap : Nat) (ops : List BufOp) : BufRun :=
  ops.foldl runStep (BufRun.init cap)

/-! ## LocalizationChain (modelled from the spec)

The implementation file `vtr_pose_graph/path/localization_chain.hpp` is not
among the given sources; only its unit test
(`vtr_pose_graph/test/path/test_localization_chain.cpp`) and a caller
(`calculate_distance.cpp`) are. The chain state and operations below are
therefore modelled from the specification text (§3, §4.3). -/

/-- Modelled from the spec: a rigid 3D transform ("EdgeTransform": rotation
and translation), composable and invertible, with exact rational entries in
place of the C++ doubles. -/
structure SE3 where
  rot : Fin 3 → Fin 3 → ℚ
  trans : Fin 3 → ℚ
deriving DecidableEq

/-- The identity transform. -/
def SE3.id : SE3 :=
  ⟨fun i j => if i = j then 1 else 0, fun _ => 0⟩

/-- Composition of rigid transforms: rotations multiply, the translation is
the first transform's rotation applied to the second's translation plus the
first's translation. -/
def SE3.comp (a b : SE3) : SE3 :=
  ⟨fun i j => ∑ k : Fin 3, a.rot i k * b.rot k j,
   fun i => (∑ k : Fin 3, a.rot i k * b.trans k) + a.trans i⟩

/-- Modelled from the spec: a VertexId is a (runId, sequenceIndex) pair. -/
abbrev VertexId := Nat × Nat

/-- Modelled from the spec: the LocalizationChain state needed by the
claims — the installed privileged sequence with its per-edge transforms
(the pose-graph lookup is abstracted into the `setSequence` argument), the
cumulative transforms precomputed by `expand`, the petiole vertex, the
odometry-accumulated `T_leaf_petiole`, and the localized flag. -/
structure LocalizationChain where
  seq : List VertexId
  edgeT : List SE3
  cumT : List SE3
  petiole : Option VertexId
  T_leaf_petiole : SE3
  is_localized : Bool

/-- A chain before any sequence is installed. -/
def LocalizationChain.init : LocalizationChain :=
  ⟨[], [], [], none, SE3.id, false⟩

/-- Modelled from the spec: `set_sequence(ids)` installs the privileged path
(per-edge transforms come from the pose graph, abstracted as `edges`) and
invalidates prior chain state. -/
def LocalizationChain.setSequence (c : LocalizationChain)
    (ids : List VertexId) (edges : List SE3) : LocalizationChain :=
  ⟨ids, edges, [], none, SE3.id, false⟩

/-- Modelled from the spec: `expand()` precomputes cumulative transforms
along the sequence. -/
def LocalizationChain.expand (c : LocalizationChain) : LocalizationChain :=
  { c with cumT := c.edgeT.scanl SE3.comp SE3.id }

/-- Modelled from the spec: `set_petiole(vid)` records a newly created
live-run vertex as petiole and resets `T_leaf_petiole` to the identity. -/
def LocalizationChain.setPetiole (c : LocalizationChain) (v : VertexId) :
    LocalizationChain :=
  { c with petiole := some v, T_leaf_petiole := SE3.id }

/-- Modelled from the spec: `update_petiole_to_leaf(transform, success)`
composes `transform` onto the running leaf estimate; on failure the chain is
marked not localized. -/
def LocalizationChain.updatePetioleToLeaf (c : LocalizationChain)
    (t : SE3) (success : Bool) : LocalizationChain :=
  { c with T_leaf_petiole := SE3.comp t c.T_leaf_petiole,
           is_localized := c.is_localized && success }

/-- Modelled from the spec: `length()` is the sum of per-edge translation
magnitudes along the installed sequence, independent of chain composition. -/
noncomputable def LocalizationChain.length (c : LocalizationChain) : ℝ :=
  (c.edgeT.map fun t =>
    Real.sqrt ((t.trans 0 : ℝ) ^ 2 + (t.trans 1 : ℝ) ^ 2
      + (t.trans 2 : ℝ) ^ 2)).sum

/-- A pure translation by (0, 0, z). -/
def tz (z : ℚ) : SE3 := ⟨SE3.id.rot, ![0, 0, z]⟩

/-- The chain of the test scenario right after `setSequence` + `expand`:
20 vertices of run 0, 19 edges each translating by (0, 0, -1). -/
def c6_chain0 : LocalizationChain :=
  (LocalizationChain.init.setSequence
    ((List.range 20).map fun i => (0, i))
    (List.replicate 19 (tz (-1)))).expand

/-- The scenario chain after `set_petiole` and five odometry updates each
translating by (0, 0, -1). -/
def c6_chain5 : LocalizationChain :=
  (((((c6_chain0.setPetiole (1, 0)).updatePetioleToLeaf (tz (-1))
    true).updatePetioleToLeaf (tz (-1)) true).updatePetioleToLeaf (tz (-1))
    true).updatePetioleToLeaf (tz (-1)) true).updatePetioleToLeaf (tz (-1))
    true

/-! ## Stereo pipeline keyframe fallback (vtr_vision/src/pipeline.cpp) -/

/-- `VertexTestResult` as used by the vision pipeline and modules. -/
inductive VertexTestResult where
  | CREATE_CANDIDATE
  | CREATE_VERTEX
  | DO_NOTHING
deriving DecidableEq, Repr

/-- The slice of `CameraQueryCache` read and written by the keyframe
fallback block of `StereoPipeline::runOdometry_` (pipeline.cpp lines
102-134): the vertex test result, the two match containers it clears, and an
abstract payload standing for the remaining cached fields. -/
structure CamFrame where
  vertex_test_result : VertexTestResult
  raw_matches : List Nat
  ransac_matches : List Nat
  payload : Nat
deriving DecidableEq, Repr

/-- Lines 102-134 of `StereoPipeline::runOdometry_`: given the frame after
the odometry modules ran, the cached candidate frame `candidate_qdata_` and
the trajectory validity `trajectory_`, returns the resulting frame, the new
cached candidate and the new trajectory validity. In the candidate branch
the copied candidate shares its cache entries with the frame, so setting the
candidate's result to CREATE_VERTEX makes the frame a forced keyframe built
from the candidate's data, and the candidate is consumed. -/
def runOdometryKeyframeFallback (q : CamFrame) (candidate : Option CamFrame)
    (trajectory : Bool) : CamFrame × Option CamFrame × Bool :=
  if q.vertex_test_result = .DO_NOTHING then
    match candidate with
    | some c =>
        ({ c with vertex_test_result := .CREATE_VERTEX }, none, trajectory)
    | none =>
        ({ q with raw_matches := [], ransac_matches := [],
                  vertex_test_result := .CREATE_VERTEX }, none, false)
  else
    (q,
     if q.vertex_test_result ≠ .CREATE_VERTEX then some q else none,
     trajectory)

/-! ## SimpleVertexTestModule (simple_vertex_test_module.cpp) -/

/-- The configuration of `SimpleVertexTestModule` (thresholds are C++
doubles, modelled as reals; the match thresholds are ints). -/
structure SVTConfig where
  min_distance : ℝ
  min_creation_distance : ℝ
  max_creation_distance : ℝ
  rotation_threshold_min : ℝ
  rotation_threshold_max : ℝ
  match_threshold_min_count : Int
  match_threshold_fail_count : Int

/-- The fields of the query cache read by `SimpleVertexTestModule::run_`:
the first-frame flag, the per-rig per-channel ransac match counts (absent
when the cache has no images), the success flag and the estimated transform
(its 6-dimensional se(3) vector: translation then rotation). -/
structure SVTInput where
  first_frame : Bool
  ransac_matches : Option (List (List Nat))
  success : Bool
  T_r_m : Option (Fin 6 → ℝ)

/-- The nested inlier-count accumulation over rigs and channels. -/
def inlierCount (rigs : List (List Nat)) : Int :=
  rigs.foldl (fun acc channels =>
    channels.foldl (fun a n => a + (n : Int)) acc) 0

/-- `SimpleVertexTestModule::run_` (simple_vertex_test_module.cpp lines
52-159): returns the vertex test result it writes together with the
resulting success flag. -/
noncomputable def svtRun (cfg : SVTConfig) (q : SVTInput) :
    VertexTestResult × Bool :=
  if q.first_frame then (.CREATE_VERTEX, q.success)
  else
    match q.ransac_matches with
    | none => (.DO_NOTHING, q.success)
    | some rigs =>
      let inlier := inlierCount rigs
      if inlier < cfg.match_threshold_fail_count then (.DO_NOTHING, false)
      else if q.success = false then (.CREATE_CANDIDATE, false)
      else
        match q.T_r_m with
        | some v =>
          let td := Real.sqrt (v 0 ^ 2 + v 1 ^ 2 + v 2 ^ 2)
          let rd := Real.sqrt (v 3 ^ 2 + v 4 ^ 2 + v 5 ^ 2) * 57.29577
          if td < cfg.min_distance ∧ rd < 0.1 then
            (.CREATE_CANDIDATE, q.success)
          else if cfg.max_creation_distance < td then (.DO_NOTHING, false)
          else if cfg.rotation_threshold_max < rd then (.DO_NOTHING, false)
          else if cfg.min_creation_distance < td then
            (.CREATE_VERTEX, q.success)
          else if cfg.rotation_threshold_min < rd then
            (.CREATE_VERTEX, q.success)
          else if inlier < cfg.match_threshold_min_count then
            (.CREATE_VERTEX, q.success)
          else (.CREATE_CANDIDATE, q.success)
        | none => (.DO_NOTHING, false)

/-! ### Properties of the prefix move loop -/

theorem moveLoop_concat {T : Type} (q : List (T × Bool)) (nd : List T) :
    (moveLoop q nd).2 ++ (moveLoop q nd).1.map Prod.fst = nd ++ q.map Prod.fst := by
  induction q generalizing nd with
  | nil => simp [moveLoop]
  | cons p rest ih =>
    obtain ⟨x, f⟩ := p
    cases f with
    | false => simpa [moveLoop] using ih (nd ++ [x])
    | true => simp [moveLoop]

theorem moveLoop_length {T : Type} (q : List (T × Bool)) (nd : List T) :
    (moveLoop q nd).1.length + (moveLoop q nd).2.length = q.length + nd.length := by
  have h := congrArg List.length (moveLoop_concat q nd)
  simp only [List.length_append, List.length_map] at h
  omega

theorem moveLoop_mem_queries {T : Type} (q : List (T × Bool)) (nd : List T) :
    ∀ p ∈ (moveLoop q nd).1, p ∈ q := by
  induction q generalizing nd with
  | nil => simp [moveLoop]
  | cons p rest ih =>
    obtain ⟨x, f⟩ := p
    cases f with
    | false =>
      intro p hp
      exact List.mem_cons_of_mem _ (ih (nd ++ [x]) p hp)
    | true => simp [moveLoop]

theorem moveLoop_head_flag {T : Type} (q : List (T × Bool)) (nd : List T)
    (p : T × Bool) (rest : List (T × Bool)) (h : (moveLoop q nd).1 = p :: rest) :
    p.2 = true := by
  induction q generalizing nd with
  | nil => simp [moveLoop] at h
  | cons hd tl ih =>
    obtain ⟨x, f⟩ := hd
    cases f with
    | false => exact ih (nd ++ [x]) h
    | true =>
      simp only [moveLoop] at h
      injection h with h1 _
      rw [← h1]

theorem moveLoop_nil_of_all_false {T : Type} (q : List (T × Bool)) (nd : List T)
    (h : ∀ p ∈ q, p.2 = false) : (moveLoop q nd).1 = [] := by
  induction q generalizing nd with
  | nil => simp [moveLoop]
  | cons hd tl ih =>
    obtain ⟨x, f⟩ := hd
    have hf : f = false := h (x, f) (List.mem_cons_self _ _)
    subst hf
    exact ih (nd ++ [x]) fun p hp => h p (List.mem_cons_of_mem _ hp)

theorem moveLoop_all_false_of_nil {T : Type} (q : List (T × Bool)) (nd : List T)
    (h : (moveLoop q nd).1 = []) : ∀ p ∈ q, p.2 = false := by
  induction q generalizing nd with
  | nil => simp
  | cons hd tl ih =>
    obtain ⟨x, f⟩ := hd
    cases f with
    | false =>
      intro p hp
      rcases List.mem_cons.1 hp with h' | h'
      · rw [h']
      · exact ih (nd ++ [x]) h p h'
    | true => simp [moveLoop] at h

theorem moveLoop_find {T : Type} (q : List (T × Bool)) (nd : List T)
    (p : T × Bool) (rest : List (T × Bool)) (h : (moveLoop q nd).1 = p :: rest) :
    q.find? (fun e => e.2) = some p := by
  induction q generalizing nd with
  | nil => simp [moveLoop] at h
  | cons hd tl ih =>
    obtain ⟨x, f⟩ := hd
    cases f with
    | false =>
      rw [List.find?_cons_of_neg _ (by simp)]
      exact ih (nd ++ [x]) h
    | true =>
      simp only [moveLoop] at h
      injection h with h1 _
      rw [List.find?_cons_of_pos _ (by simp)]
      exact congrArg some h1

theorem moveLoop_nondisc_mem {T : Type} (q : List (T × Bool)) (nd : List T) :
    ∀ y ∈ (moveLoop q nd).2, y ∈ nd ∨ (y, false) ∈ q := by
  induction q generalizing nd with
  | nil => simp [moveLoop]
  | cons hd tl ih =>
    obtain ⟨x, f⟩ := hd
    cases f with
    | false =>
      intro y hy
      rcases ih (nd ++ [x]) y hy with h | h
      · rcases List.mem_append.1 h with h' | h'
        · exact Or.inl h'
        · simp only [List.mem_singleton] at h'
          subst h'
          exact Or.inr (List.mem_cons_self _ _)
      · exact Or.inr (List.mem_cons_of_mem _ h)
    | true =>
      intro y hy
      simp only [moveLoop] at hy
      exact Or.inl hy

/-! ### Characterization of push and pop -/

theorem push_not_full {T : Type} (b : QueryBuffer T) (x : T) (d : Bool)
    (h1 : b.curr = b.queries.length + b.nondisc.length)
    (hlt : b.curr < b.cap) :
    b.push x d = .ok (.ret false,
      { b with queries := (moveLoop b.queries b.nondisc).1 ++ [(x, d)],
               nondisc := (moveLoop b.queries b.nondisc).2,
               curr := b.curr + 1 }) := by
  have hne : ¬ b.curr ≠ b.queries.length + b.nondisc.length := by simp [h1]
  have hle : ¬ b.cap < b.curr := by omega
  have hcap : ¬ b.curr = b.cap := by omega
  simp only [QueryBuffer.push, if_neg hne, if_neg hle, if_neg hcap]

theorem push_full_allnd {T : Type} (b : QueryBuffer T) (x : T) (d : Bool)
    (h1 : b.curr = b.queries.length + b.nondisc.length)
    (hfull : b.curr = b.cap)
    (hnd : (moveLoop b.queries b.nondisc).2.length = b.cap) :
    b.push x d = .ok ((if d then .ret true else .blocked),
      { b with queries := (moveLoop b.queries b.nondisc).1,
               nondisc := (moveLoop b.queries b.nondisc).2 }) := by
  have hne : ¬ b.curr ≠ b.queries.length + b.nondisc.length := by simp [h1]
  have hle : ¬ b.cap < b.curr := by omega
  simp only [QueryBuffer.push, if_neg hne, if_neg hle, if_pos hfull, if_pos hnd]
  cases d <;> simp

theorem push_full_evict {T : Type} (b : QueryBuffer T) (x : T) (d : Bool)
    (h1 : b.curr = b.queries.length + b.nondisc.length)
    (hfull : b.curr = b.cap)
    (hnd : (moveLoop b.queries b.nondisc).2.length ≠ b.cap) :
    b.push x d = .ok (.ret true,
      { b with queries := ((moveLoop b.queries b.nondisc).1 ++ [(x, d)]).tail,
               nondisc := (moveLoop b.queries b.nondisc).2 }) := by
  have hne : ¬ b.curr ≠ b.queries.length + b.nondisc.length := by simp [h1]
  have hle : ¬ b.cap < b.curr := by omega
  simp only [QueryBuffer.push, if_neg hne, if_neg hle, if_pos hfull, if_neg hnd]

theorem pop_cases {T : Type} (b : QueryBuffer T) (y : T) (b' : QueryBuffer T)
    (h : b.pop = some (y, b')) :
    b.curr ≠ 0 ∧
      ((∃ nd, b.nondisc = y :: nd ∧
          b' = { b with nondisc := nd, curr := b.curr - 1 }) ∨
        (b.nondisc = [] ∧ ∃ f q, b.queries = (y, f) :: q ∧
          b' = { b with queries := q, curr := b.curr - 1 })) := by
  obtain ⟨cap, curr, queries, nondisc⟩ := b
  by_cases hc : curr = 0
  · subst hc
    simp [QueryBuffer.pop] at h
  · refine ⟨hc, ?_⟩
    cases nondisc with
    | cons z nd =>
      simp only [QueryBuffer.pop, if_neg hc, Option.some.injEq, Prod.mk.injEq] at h
      obtain ⟨h1, h2⟩ := h
      subst h1
      exact Or.inl ⟨nd, rfl, h2.symm⟩
    | nil =>
      cases queries with
      | nil => simp [QueryBuffer.pop, hc] at h
      | cons p q =>
        obtain ⟨z, f⟩ := p
        simp only [QueryBuffer.pop, if_neg hc, Option.some.injEq, Prod.mk.injEq] at h
        obtain ⟨h1, h2⟩ := h
        subst h1
        exact Or.inr ⟨rfl, f, q, rfl, h2.symm⟩

/-! ### The run invariant -/

/-- Invariant of a tagged run: the occupancy bookkeeping of the buffer is
consistent, stored flags agree with the items' own flags, the staged queue
holds only non-discardable items, the popped items followed by the buffered
items are ordered by push id, and all ids are below the fresh counter. -/
def GoodRun (s : BufRun) : Prop :=
  s.buf.curr = s.buf.queries.length + s.buf.nondisc.length ∧
  s.buf.curr ≤ s.buf.cap ∧
  (∀ p ∈ s.buf.queries, p.1.2 = p.2) ∧
  (∀ y ∈ s.buf.nondisc, y.2 = false) ∧
  List.Pairwise (fun u v => u.1 < v.1) (s.popped ++ bufItems s.buf) ∧
  (∀ y ∈ s.popped ++ bufItems s.buf, y.1 < s.next)

theorem goodRun_init (cap : Nat) : GoodRun (BufRun.init cap) := by
  refine ⟨rfl, ?_, ?_, ?_, ?_, ?_⟩ <;>
    simp [BufRun.init, QueryBuffer.empty, bufItems]

theorem goodRun_step (s : BufRun) (op : BufOp) (h : GoodRun s) :
    GoodRun (runStep s op) := by
  obtain ⟨h1, h2, h3, h4, h5, h6⟩ := h
  cases op with
  | pop =>
    cases hp : s.buf.pop with
    | none =>
      simp only [runStep, hp]
      exact ⟨h1, h2, h3, h4, h5, h6⟩
    | some yb =>
      obtain ⟨y, b'⟩ := yb
      obtain ⟨hc, hcase⟩ := pop_cases s.buf y b' hp
      simp only [runStep, hp]
      rcases hcase with ⟨nd, hnd, hb'⟩ | ⟨hnd, f, q, hq, hb'⟩
      · subst hb'
        have hlen := congrArg List.length hnd
        simp only [List.length_cons] at hlen
        have hL : (s.popped ++ [y]) ++
            bufItems { s.buf with nondisc := nd, curr := s.buf.curr - 1 }
            = s.popped ++ bufItems s.buf := by
          simp [bufItems, hnd]
        refine ⟨by simp; omega, by simp; omega, h3, ?_, ?_, ?_⟩
        · intro y' hy'
          exact h4 y' (hnd ▸ List.mem_cons_of_mem _ hy')
        · show List.Pairwise _ ((s.popped ++ [y]) ++ bufItems _)
          rw [hL]
          exact h5
        · intro y' hy'
          rw [hL] at hy'
          exact h6 y' hy'
      · subst hb'
        have hlen := congrArg List.length hq
        simp only [List.length_cons] at hlen
        have hL : (s.popped ++ [y]) ++
            bufItems { s.buf with queries := q, curr := s.buf.curr - 1 }
            = s.popped ++ bufItems s.buf := by
          simp [bufItems, hnd, hq]
        refine ⟨by simp; omega, by simp; omega, ?_, h4, ?_, ?_⟩
        · intro p' hp'
          exact h3 p' (hq ▸ List.mem_cons_of_mem _ hp')
        · show List.Pairwise _ ((s.popped ++ [y]) ++ bufItems _)
          rw [hL]
          exact h5
        · intro y' hy'
          rw [hL] at hy'
          exact h6 y' hy'
  | push d =>
    have hm := moveLoop_concat s.buf.queries s.buf.nondisc
    have hml := moveLoop_length s.buf.queries s.buf.nondisc
    have hc' : ∀ p ∈ (moveLoop s.buf.queries s.buf.nondisc).1, p.1.2 = p.2 :=
      fun p hp => h3 p (moveLoop_mem_queries _ _ p hp)
    have hd' : ∀ y ∈ (moveLoop s.buf.queries s.buf.nondisc).2, y.2 = false := by
      intro y hy
      rcases moveLoop_nondisc_mem _ _ y hy with h' | h'
      · exact h4 y h'
      · exact h3 (y, false) h'
    by_cases hfull : s.buf.curr = s.buf.cap
    · by_cases hnd : (moveLoop s.buf.queries s.buf.nondisc).2.length = s.buf.cap
      · have hpush := push_full_allnd s.buf (s.next, d) d h1 hfull hnd
        simp only [runStep, hpush]
        have hb : bufItems { s.buf with
              queries := (moveLoop s.buf.queries s.buf.nondisc).1,
              nondisc := (moveLoop s.buf.queries s.buf.nondisc).2 }
            = bufItems s.buf := by
          show (moveLoop s.buf.queries s.buf.nondisc).2 ++
              ((moveLoop s.buf.queries s.buf.nondisc).1.map Prod.fst) = _
          rw [hm]
          rfl
        refine ⟨by simp; omega, h2, hc', hd', ?_, ?_⟩
        · show List.Pairwise _ (s.popped ++ bufItems _)
          rw [hb]
          exact h5
        · intro y' hy'
          rw [hb] at hy'
          exact Nat.lt_succ_of_lt (h6 y' hy')
      · have hpush := push_full_evict s.buf (s.next, d) d h1 hfull hnd
        obtain ⟨p, rest, hm1⟩ :
            ∃ p rest, (moveLoop s.buf.queries s.buf.nondisc).1 = p :: rest := by
          cases hq : (moveLoop s.buf.queries s.buf.nondisc).1 with
          | nil =>
            exfalso
            rw [hq] at hml
            simp only [List.length_nil, Nat.zero_add] at hml
            omega
          | cons p rest => exact ⟨p, rest, rfl⟩
        simp only [runStep, hpush]
        have hOld : s.popped ++ bufItems s.buf
            = (s.popped ++ (moveLoop s.buf.queries s.buf.nondisc).2)
              ++ (p.1 :: rest.map Prod.fst) := by
          have : bufItems s.buf
              = (moveLoop s.buf.queries s.buf.nondisc).2
                ++ (p.1 :: rest.map Prod.fst) := by
            rw [bufItems, ← hm, hm1]
            rfl
          rw [this, List.append_assoc]
        have hNew : s.popped ++ bufItems { s.buf with
              queries := ((moveLoop s.buf.queries s.buf.nondisc).1
                ++ [((s.next, d), d)]).tail,
              nondisc := (moveLoop s.buf.queries s.buf.nondisc).2 }
            = ((s.popped ++ (moveLoop s.buf.queries s.buf.nondisc).2)
              ++ rest.map Prod.fst) ++ [(s.next, d)] := by
          rw [hm1]
          simp [bufItems, List.append_assoc]
        have hlen1 := congrArg List.length hm1
        simp only [List.length_cons] at hlen1
        have hsub : List.Pairwise (fun u v => u.1 < v.1)
            ((s.popped ++ (moveLoop s.buf.queries s.buf.nondisc).2)
              ++ rest.map Prod.fst) := by
          refine List.Pairwise.sublist ?_ (hOld ▸ h5)
          exact List.Sublist.append_left (List.sublist_cons_self _ _) _
        refine ⟨?_, h2, ?_, hd', ?_, ?_⟩
        · simp only [hm1]
          simp
          omega
        · intro p' hp'
          simp only [hm1] at hp'
          rcases List.mem_append.1 hp' with h' | h'
          · exact hc' p' (hm1 ▸ List.mem_cons_of_mem _ h')
          · simp only [List.mem_singleton] at h'
            subst h'
            rfl
        · show List.Pairwise _ (s.popped ++ bufItems _)
          rw [hNew]
          refine (List.pairwise_append).2 ⟨hsub, List.pairwise_singleton _ _, ?_⟩
          intro u hu v hv
          simp only [List.mem_singleton] at hv
          subst hv
          refine h6 u ?_
          rw [hOld]
          rcases List.mem_append.1 hu with h' | h'
          · exact List.mem_append.2 (Or.inl h')
          · exact List.mem_append.2 (Or.inr (List.mem_cons_of_mem _ h'))
        · intro y' hy'
          rw [hNew] at hy'
          rcases List.mem_append.1 hy' with h' | h'
          · refine Nat.lt_succ_of_lt (h6 y' ?_)
            rw [hOld]
            rcases List.mem_append.1 h' with h'' | h''
            · exact List.mem_append.2 (Or.inl h'')
            · exact List.mem_append.2 (Or.inr (List.mem_cons_of_mem _ h''))
          · simp only [List.mem_singleton] at h'
            subst h'
            exact Nat.lt_succ_self _
    · have hlt : s.buf.curr < s.buf.cap := lt_of_le_of_ne h2 hfull
      have hpush := push_not_full s.buf (s.next, d) d h1 hlt
      simp only [runStep, hpush]
      have hb : bufItems { s.buf with
            queries := (moveLoop s.buf.queries s.buf.nondisc).1
              ++ [((s.next, d), d)],
            nondisc := (moveLoop s.buf.queries s.buf.nondisc).2,
            curr := s.buf.curr + 1 }
          = bufItems s.buf ++ [(s.next, d)] := by
        show (moveLoop s.buf.queries s.buf.nondisc).2 ++
            (((moveLoop s.buf.queries s.buf.nondisc).1
              ++ [((s.next, d), d)]).map Prod.fst) = _
        rw [List.map_append, ← List.append_assoc, hm]
        rfl
      refine ⟨?_, by simp; omega, ?_, hd', ?_, ?_⟩
      · simp
        omega
      · intro p' hp'
        rcases List.mem_append.1 hp' with h' | h'
        · exact hc' p' h'
        · simp only [List.mem_singleton] at h'
          subst h'
          rfl
      · show List.Pairwise _ (s.popped ++ bufItems _)
        rw [hb, ← List.append_assoc]
        refine (List.pairwise_append).2 ⟨h5, List.pairwise_singleton _ _, ?_⟩
        intro u hu v hv
        simp only [List.mem_singleton] at hv
        subst hv
        exact h6 u hu
      · intro y' hy'
        rw [hb, ← List.append_assoc] at hy'
        rcases List.mem_append.1 hy' with h' | h'
        · exact Nat.lt_succ_of_lt (h6 y' h')
        · simp only [List.mem_singleton] at h'
          subst h'
          exact Nat.lt_succ_self _

theorem goodRun_runOps (cap : Nat) (ops : List BufOp) :
    GoodRun (runOps cap ops) := by
  rw [runOps]
  induction ops using List.reverseRecOn with
  | nil => exact goodRun_init cap
  | append_singleton ops op ih =>
    rw [List.foldl_append]
    exact goodRun_step _ op ih

theorem filter_flag_length (l : List (Nat × Bool)) :
    (l.filter fun y => y.2).length + (l.filter fun y => !y.2).length
      = l.length := by
  induction l with
  | nil => rfl
  | cons p rest ih =>
    cases hp : p.2 <;> simp [List.filter_cons, hp] <;> omega

/-! ## Claim theorems about the buffer -/

/-- C3: after every finite sequence of push and pop operations starting from
an empty buffer, the occupancy counter equals the number of discardable items
plus the number of non-discardable items currently held and never exceeds the
capacity, and the consistency check at the start of `push` (the two `throw`
statements) passes at every reachable state, so a further push never throws. -/
theorem C3_occupancy_invariant (cap : Nat) (ops : List BufOp)
    (x : Nat × Bool) (d : Bool) :
    (runOps cap ops).buf.curr
        = ((bufItems (runOps cap ops).buf).filter fun y => y.2).length
          + ((bufItems (runOps cap ops).buf).filter fun y => !y.2).length
      ∧ (runOps cap ops).buf.curr ≤ (runOps cap ops).buf.cap
      ∧ ∃ r, (runOps cap ops).buf.push x d = .ok r := by
  obtain ⟨h1, h2, _, _, _, _⟩ := goodRun_runOps cap ops
  refine ⟨?_, h2, ?_⟩
  · rw [filter_flag_length]
    simp only [bufItems, List.length_append, List.length_map]
    omega
  · by_cases hfull : (runOps cap ops).buf.curr = (runOps cap ops).buf.cap
    · by_cases hnd : (moveLoop (runOps cap ops).buf.queries
          (runOps cap ops).buf.nondisc).2.length = (runOps cap ops).buf.cap
      · exact ⟨_, push_full_allnd _ x d h1 hfull hnd⟩
      · exact ⟨_, push_full_evict _ x d h1 hfull hnd⟩
    · exact ⟨_, push_not_full _ x d h1 (lt_of_le_of_ne h2 hfull)⟩

/-- C9: within each admission class the buffer is FIFO: over any finite
sequence of pushes and pops, the popped non-discardable items carry strictly
increasing push ids, and so do the popped discardable items — each class
comes out in the relative order in which it was pushed. -/
theorem C9_fifo_within_class (cap : Nat) (ops : List BufOp) :
    List.Pairwise (fun u v => u.1 < v.1)
        ((runOps cap ops).popped.filter fun y => !y.2)
      ∧ List.Pairwise (fun u v => u.1 < v.1)
        ((runOps cap ops).popped.filter fun y => y.2) := by
  obtain ⟨_, _, _, _, h5, _⟩ := goodRun_runOps cap ops
  have hp : List.Pairwise (fun u v => u.1 < v.1) (runOps cap ops).popped :=
    ((List.pairwise_append).1 h5).1
  exact ⟨List.Pairwise.sublist (List.filter_sublist _) hp,
    List.Pairwise.sublist (List.filter_sublist _) hp⟩

/-- C1 is false on the code: pushing A = id 0 (discardable),
B = id 1 (non-discardable), C = id 2 (discardable) into an empty capacity-3
buffer, the first pop returns the discardable A even though the
non-discardable B is in the buffer (B was never moved to the staging queue
because A, a discardable item, blocks the prefix scan of `push`), and the
three pops return A, B, C — not B, A, C as claimed. -/
theorem C1_counterexample :
    (1, false) ∈ bufItems (runOps 3 [.push true, .push false, .push true]).buf
      ∧ (runOps 3 [.push true, .push false, .push true]).buf.pop
          = some ((0, true),
              ⟨3, 2, [((1, false), false), ((2, true), true)], []⟩)
      ∧ (runOps 3 [.push true, .push false, .push true, .pop, .pop, .pop]).popped
          = [(0, true), (1, false), (2, true)] := by
  decide

/-- C1 amended: `pop` prefers a non-discardable entry only among those moved
into the staging queue `nondiscardable_queries_` by the prefix scan of a
later `push`: whenever the staging queue is non-empty, `pop` returns its
front (and the staging queue holds only non-discardable items); a
non-discardable item still in the mixed queue behind a discardable one is
returned in plain FIFO position. In particular for pushes
[A(discardable), B(non-discardable), C(discardable)] into an empty
capacity-3 buffer the pop order is [A, B, C]. -/
theorem C1_amended_pop_preference :
    (∀ (T : Type) (b : QueryBuffer T) (y : T) (nd : List T),
        b.curr ≠ 0 → b.nondisc = y :: nd →
          b.pop = some (y, { b with nondisc := nd, curr := b.curr - 1 }))
      ∧ (∀ (cap : Nat) (ops : List BufOp),
          ∀ y ∈ (runOps cap ops).buf.nondisc, y.2 = false)
      ∧ (runOps 3 [.push true, .push false, .push true, .pop, .pop, .pop]).popped
          = [(0, true), (1, false), (2, true)] := by
  refine ⟨?_, ?_, by decide⟩
  · intro T b y nd hc hnd
    obtain ⟨cap, curr, queries, nondisc⟩ := b
    simp only at hnd
    subst hnd
    simp [QueryBuffer.pop, hc]
  · intro cap ops y hy
    obtain ⟨_, _, _, h4, _, _⟩ := goodRun_runOps cap ops
    exact h4 y hy

theorem C1_amended_pop_preference_witness :
    QueryBuffer.pop (⟨2, 1, [], [7]⟩ : QueryBuffer Nat)
        = some (7, ⟨2, 0, [], []⟩)
      ∧ ((0 : Nat), false).2 = false :=
  ⟨C1_amended_pop_preference.1 Nat ⟨2, 1, [], [7]⟩ 7 [] (by decide) rfl,
   C1_amended_pop_preference.2.1 2 [.push false, .push true] (0, false)
     (by decide)⟩

/-- C4 is false on the code: on a full capacity-1 buffer holding the
discardable item 0, pushing item 1 (discardable) returns `discarded = true`
("Discarded") even though the pushed item 1 itself entered the buffer (the
evicted item is the old 0): the return value reports that some item was
dropped, not the fate of the pushed item. -/
theorem C4_counterexample :
    (runOps 1 [.push true]).buf.push (1, true) true
        = .ok (.ret true, ⟨1, 1, [((1, true), true)], []⟩)
      ∧ ((1, true), true)
          ∈ (⟨1, 1, [((1, true), true)], []⟩
              : QueryBuffer (Nat × Bool)).queries := by
  decide

/-- C4 amended: the returned flag reports whether any item was dropped, not
the fate of the pushed item. With a consistent size count: if occupancy is
below capacity the push returns Admitted (`ret false`) and the item enters;
if the buffer is full and holds only non-discardable items a discardable
push returns Discarded (`ret true`) with the pushed item rejected (buffer
contents unchanged); if the buffer is full with at least one discardable
entry, the push evicts the oldest discardable entry, admits the pushed item,
and still returns Discarded (`ret true`). -/
theorem C4_amended_return_value {T : Type} (b : QueryBuffer T) (x : T)
    (d : Bool) (h1 : b.curr = b.queries.length + b.nondisc.length) :
    (b.curr < b.cap →
        b.push x d = .ok (.ret false,
          { b with queries := (moveLoop b.queries b.nondisc).1 ++ [(x, d)],
                   nondisc := (moveLoop b.queries b.nondisc).2,
                   curr := b.curr + 1 }))
      ∧ (b.curr = b.cap →
          (moveLoop b.queries b.nondisc).2.length = b.cap →
            b.push x true = .ok (.ret true,
              { b with queries := (moveLoop b.queries b.nondisc).1,
                       nondisc := (moveLoop b.queries b.nondisc).2 }))
      ∧ (b.curr = b.cap →
          (moveLoop b.queries b.nondisc).2.length ≠ b.cap →
            b.push x d = .ok (.ret true,
              { b with
                  queries := ((moveLoop b.queries b.nondisc).1
                    ++ [(x, d)]).tail,
                  nondisc := (moveLoop b.queries b.nondisc).2 })) := by
  refine ⟨fun hlt => push_not_full b x d h1 hlt,
    fun hfull hnd => ?_,
    fun hfull hnd => push_full_evict b x d h1 hfull hnd⟩
  exact push_full_allnd b x true h1 hfull hnd

theorem C4_amended_return_value_witness :
    QueryBuffer.push (⟨2, 1, [(5, true)], []⟩ : QueryBuffer Nat) 6 true
        = .ok (.ret false, ⟨2, 2, [(5, true), (6, true)], []⟩)
      ∧ QueryBuffer.push (⟨1, 1, [(5, false)], []⟩ : QueryBuffer Nat) 6 true
          = .ok (.ret true, ⟨1, 1, [], [5]⟩)
      ∧ QueryBuffer.push (⟨1, 1, [(5, true)], []⟩ : QueryBuffer Nat) 6 true
          = .ok (.ret true, ⟨1, 1, [(6, true)], []⟩) :=
  ⟨(C4_amended_return_value ⟨2, 1, [(5, true)], []⟩ 6 true rfl).1 (by decide),
   (C4_amended_return_value ⟨1, 1, [(5, false)], []⟩ 6 true rfl).2.1 rfl
     (by decide),
   (C4_amended_return_value ⟨1, 1, [(5, true)], []⟩ 6 true rfl).2.2 rfl
     (by decide)⟩

/-- C2: on a full buffer with a consistent size count: when every buffered
item is non-discardable, a discardable push is rejected immediately (it
returns `discarded = true` and does not block, leaving the buffer contents
unchanged) while a non-discardable push blocks, and once a pop frees a slot
the retried push is admitted (`discarded = false`, item in the buffer); when
at least one buffered item is discardable, the oldest discardable entry
(the `find?` of the mixed queue) is evicted and the new item is admitted at
the back, whatever its discardable flag. -/
theorem C2_full_buffer_policy {T : Type} (b : QueryBuffer T) (x : T)
    (h1 : b.curr = b.queries.length + b.nondisc.length)
    (hfull : b.curr = b.cap) :
    ((∀ p ∈ b.queries, p.2 = false) →
        (b.push x true = .ok (.ret true,
            { b with queries := (moveLoop b.queries b.nondisc).1,
                     nondisc := (moveLoop b.queries b.nondisc).2 })
          ∧ bufItems { b with queries := ((moveLoop b.queries b.nondisc).1),
                              nondisc := ((moveLoop b.queries b.nondisc).2) }
              = bufItems b
          ∧ b.push x false = .ok (.blocked,
              { b with queries := (moveLoop b.queries b.nondisc).1,
                       nondisc := (moveLoop b.queries b.nondisc).2 })
          ∧ ∀ y b'',
              QueryBuffer.pop
                  { b with queries := ((moveLoop b.queries b.nondisc).1),
                           nondisc := ((moveLoop b.queries b.nondisc).2) }
                  = some (y, b'') →
                ∃ b''', b''.push x false = .ok (.ret false, b''')
                  ∧ (x, false) ∈ b'''.queries))
      ∧ (∀ d, (∃ p ∈ b.queries, p.2 = true) →
          b.push x d = .ok (.ret true,
              { b with
                  queries := ((moveLoop b.queries b.nondisc).1
                    ++ [(x, d)]).tail,
                  nondisc := (moveLoop b.queries b.nondisc).2 })
            ∧ b.queries.find? (fun e => e.2)
                = (moveLoop b.queries b.nondisc).1.head?) := by
  have hml := moveLoop_length b.queries b.nondisc
  constructor
  · intro hall
    have hm1 : (moveLoop b.queries b.nondisc).1 = [] :=
      moveLoop_nil_of_all_false _ _ hall
    have hnd : (moveLoop b.queries b.nondisc).2.length = b.cap := by
      rw [hm1] at hml
      simp only [List.length_nil, Nat.zero_add] at hml
      omega
    refine ⟨?_, ?_, ?_, ?_⟩
    · exact push_full_allnd b x true h1 hfull hnd
    · show (moveLoop b.queries b.nondisc).2
          ++ ((moveLoop b.queries b.nondisc).1.map Prod.fst) = _
      rw [moveLoop_concat]
      rfl
    · exact push_full_allnd b x false h1 hfull hnd
    · intro y b'' hpop
      obtain ⟨hc, hcase⟩ := pop_cases _ y b'' hpop
      rcases hcase with ⟨nd, hnd', hb''⟩ | ⟨_, f, q, hq, hb''⟩
      · subst hb''
        simp only at hnd' hc ⊢
        have hlen := congrArg List.length hnd'
        simp only [List.length_cons] at hlen
        have h1'' : b.curr - 1 = (moveLoop b.queries b.nondisc).1.length
            + nd.length := by
          rw [hm1]
          simp only [List.length_nil, Nat.zero_add]
          omega
        have hlt'' : b.curr - 1 < b.cap := by omega
        refine ⟨_, push_not_full _ x false ?_ ?_, ?_⟩
        · simpa [hm1] using h1''
        · simpa using hlt''
        · simp [moveLoop, hm1]
      · simp only [hm1] at hq
        exact absurd hq (by simp)
  · intro d hsome
    obtain ⟨p, rest, hm1⟩ :
        ∃ p rest, (moveLoop b.queries b.nondisc).1 = p :: rest := by
      cases hq : (moveLoop b.queries b.nondisc).1 with
      | nil =>
        obtain ⟨p, hp, hflag⟩ := hsome
        have := moveLoop_all_false_of_nil b.queries b.nondisc hq p hp
        rw [hflag] at this
        exact absurd this (by simp)
      | cons p rest => exact ⟨p, rest, rfl⟩
    have hlen1 := congrArg List.length hm1
    simp only [List.length_cons] at hlen1
    have hnd : (moveLoop b.queries b.nondisc).2.length ≠ b.cap := by omega
    refine ⟨push_full_evict b x d h1 hfull hnd, ?_⟩
    rw [hm1, moveLoop_find b.queries b.nondisc p rest hm1]
    rfl

theorem C2_full_buffer_policy_witness :
    QueryBuffer.push (⟨1, 1, [(5, false)], []⟩ : QueryBuffer Nat) 9 true
        = .ok (.ret true, ⟨1, 1, [], [5]⟩)
      ∧ QueryBuffer.push (⟨1, 1, [(5, true)], []⟩ : QueryBuffer Nat) 9 false
          = .ok (.ret true, ⟨1, 1, [(9, false)], []⟩)
      ∧ List.find? (fun e => e.2) [((5 : Nat), true)] = some (5, true) :=
  ⟨((C2_full_buffer_policy ⟨1, 1, [(5, false)], []⟩ 9 rfl rfl).1
      (by decide)).1,
   ((C2_full_buffer_policy ⟨1, 1, [(5, true)], []⟩ 9 rfl rfl).2 false
      ⟨(5, true), List.mem_cons_self _ _, rfl⟩).1,
   ((C2_full_buffer_policy ⟨1, 1, [(5, true)], []⟩ 9 rfl rfl).2 false
      ⟨(5, true), List.mem_cons_self _ _, rfl⟩).2⟩

theorem SE3.id_comp (a : SE3) : SE3.comp SE3.id a = a := by
  obtain ⟨r, t⟩ := a
  simp only [SE3.comp, SE3.id, SE3.mk.injEq]
  constructor
  · funext i j
    simp [ite_mul, Finset.sum_ite_eq]
  · funext i
    simp [ite_mul, Finset.sum_ite_eq]

theorem SE3.comp_rotid (a b : SE3) (ha : a.rot = SE3.id.rot) :
    SE3.comp a b = ⟨b.rot, fun i => b.trans i + a.trans i⟩ := by
  obtain ⟨r, t⟩ := a
  simp only at ha
  subst ha
  simp only [SE3.comp, SE3.id, SE3.mk.injEq]
  constructor
  · funext i j
    simp [ite_mul, Finset.sum_ite_eq]
  · funext i
    simp [ite_mul, Finset.sum_ite_eq, Rat.add_comm]

theorem comp_tz (z : ℚ) (b : SE3) :
    SE3.comp (tz z) b = ⟨b.rot, fun i => b.trans i + (tz z).trans i⟩ :=
  SE3.comp_rotid _ _ rfl

/-! ## Claim theorems about the chain -/

/-- C5: for every chain with an installed sequence and every live-run vertex
v, `set_petiole(v)` resets `T_leaf_petiole` to the identity, and a
subsequent `update_petiole_to_leaf(identity, true)` leaves `T_leaf_petiole`
equal to the identity, i.e. the leaf pose equals the petiole pose. -/
theorem C5_set_petiole_resets_leaf (c : LocalizationChain) (v : VertexId)
    (h : c.seq ≠ []) :
    (c.setPetiole v).T_leaf_petiole = SE3.id
      ∧ ((c.setPetiole v).updatePetioleToLeaf SE3.id
          true).T_leaf_petiole = SE3.id := by
  exact ⟨rfl, SE3.id_comp SE3.id⟩

theorem C5_set_petiole_resets_leaf_witness :
    (LocalizationChain.init.setSequence [(0, 0), (0, 1)]
        [tz (-1)]).seq ≠ []
      ∧ ((LocalizationChain.init.setSequence [(0, 0), (0, 1)]
          [tz (-1)]).setPetiole (1, 0)).T_leaf_petiole = SE3.id :=
  ⟨by decide,
   (C5_set_petiole_resets_leaf
     (LocalizationChain.init.setSequence [(0, 0), (0, 1)] [tz (-1)])
     (1, 0) (by decide)).1⟩

/-- C6: in the 20-vertex scenario (ids 0..19, per-edge translation
(0,0,-1)), after `set_petiole` and five `update_petiole_to_leaf` calls each
translating by (0,0,-1), `length()` is unchanged from its value right after
`expand()` (it reads only the installed sequence's per-edge transforms), and
the leaf's accumulated translation equals (0, 0, -5). -/
theorem C6_length_invariant_and_leaf_translation :
    c6_chain5.length = c6_chain0.length
      ∧ c6_chain5.T_leaf_petiole.trans = ![0, 0, -5] := by
  constructor
  · rfl
  · show (SE3.comp (tz (-1)) (SE3.comp (tz (-1)) (SE3.comp (tz (-1))
        (SE3.comp (tz (-1)) (SE3.comp (tz (-1)) SE3.id))))).trans
      = ![0, 0, -5]
    simp only [comp_tz]
    funext i
    fin_cases i <;> simp [tz, SE3.id] <;> norm_num

/-- C8: when the stereo odometry vertex test reports DO_NOTHING, the frame
is not dropped: with a cached candidate present the fallback substitutes the
candidate's data, forces CREATE_VERTEX on it and consumes the candidate;
with no candidate the keyframe is forced from the current frame with its
match data cleared and the trajectory reset — so a keyframe is forced from
cached candidate data only when a candidate exists. -/
theorem C8_keyframe_fallback (q c : CamFrame) (traj : Bool)
    (h : q.vertex_test_result = .DO_NOTHING) :
    runOdometryKeyframeFallback q (some c) traj
        = ({ c with vertex_test_result := .CREATE_VERTEX }, none, traj)
      ∧ runOdometryKeyframeFallback q none traj
          = ({ q with raw_matches := [], ransac_matches := [],
                      vertex_test_result := .CREATE_VERTEX }, none, false) := by
  constructor <;> simp [runOdometryKeyframeFallback, h]

theorem C8_keyframe_fallback_witness :
    runOdometryKeyframeFallback ⟨.DO_NOTHING, [1], [2], 3⟩
        (some ⟨.CREATE_CANDIDATE, [4], [5], 6⟩) true
        = (⟨.CREATE_VERTEX, [4], [5], 6⟩, none, true)
      ∧ runOdometryKeyframeFallback ⟨.DO_NOTHING, [1], [2], 3⟩ none true
          = (⟨.CREATE_VERTEX, [], [], 3⟩, none, false) :=
  C8_keyframe_fallback ⟨.DO_NOTHING, [1], [2], 3⟩
    ⟨.CREATE_CANDIDATE, [4], [5], 6⟩ true rfl

/-- C10: for every frame whose first_frame flag is true, the module sets
CREATE_VERTEX and returns immediately, regardless of match counts, the
estimated transform or the success flag — the first frame of a run is
always made a keyframe. -/
theorem C10_first_frame_forces_keyframe (cfg : SVTConfig)
    (ransac : Option (List (List Nat))) (success : Bool)
    (trm : Option (Fin 6 → ℝ)) :
    svtRun cfg ⟨true, ransac, success, trm⟩ = (.CREATE_VERTEX, success) :=
  rfl

end VTR
